import Mathlib

/-!
Shallow embedding of `pyftdi/i2c.py` (I2C master synthesized on top of an
FTDI MPSSE command engine) and verification of its specification claims.

The embedding keeps the source structure: the protocol command templates
built in `I2cController.__init__`, the pure chunk-sizing computation of
`_do_read`, and an operational model of the stateful transaction functions
(`_do_prolog`, `_do_epilog`, `_do_write`, `_do_read`, `read`, `write`,
`exchange`, `poll`, `get_port`) as explicit state passing over a scripted
command engine.
-/

set_option autoImplicit false

namespace PyFtdiI2c

/-! ## Constants from `I2cController` (i2c.py lines 167-178) -/

def LOW : Nat := 0x00
def HIGH : Nat := 0xff
def BIT0 : Nat := 0x01
def IDLE : Nat := HIGH
def SCL_BIT : Nat := 0x01
def SDA_O_BIT : Nat := 0x02
def SDA_I_BIT : Nat := 0x04
def PAYLOAD_MAX_LENGTH : Nat := 0x10000
def HIGHEST_I2C_ADDRESS : Nat := 0x7f
def RETRY_COUNT : Nat := 3

/-- `self._direction = SCL_BIT | SDA_O_BIT` (line 185). -/
def direction : Nat := SCL_BIT ||| SDA_O_BIT

/-- Command bytes sent to the engine.  The numeric values of the MPSSE
opcodes (`Ftdi.SET_BITS_LOW`, `Ftdi.READ_BITS_PVE_MSB`, ...) live in the
external `pyftdi.ftdi` module, outside the verified source; the i2c layer
only ever concatenates and counts them, so they are modelled as symbolic
constructors while data bytes are kept concrete. -/
inductive CB where
  | setBitsLow
  | readBitsPveMsb
  | readBytesPveMsb
  | writeBytesNveMsb
  | writeBitsNveMsb
  | sendImmediate
  | lit (b : Nat)
deriving DecidableEq

/-! ## Command templates built in `__init__` (lines 186-202).
`IDLE & ~mask` is written `IDLE ^^^ mask` here: `IDLE = 0xff` has every
bit of each mask set, so and-not coincides with xor. -/

def immediateCmd : List CB := [.sendImmediate]

def idleCmd : List CB := [.setBitsLow, .lit IDLE, .lit direction]

def dataLow : List CB := [.setBitsLow, .lit (IDLE ^^^ SDA_O_BIT), .lit direction]

def clockLowDataLow : List CB :=
  [.setBitsLow, .lit (IDLE ^^^ (SDA_O_BIT ||| SCL_BIT)), .lit direction]

def clockLowDataHigh : List CB := [.setBitsLow, .lit (IDLE ^^^ SCL_BIT), .lit direction]

def readBitCmd : List CB := [.readBitsPveMsb, .lit 0]

def readByteCmd : List CB := [.readBytesPveMsb, .lit 0, .lit 0]

def writeByteCmd : List CB := [.writeBytesNveMsb, .lit 0, .lit 0]

def nackCmd : List CB := [.writeBitsNveMsb, .lit 0, .lit HIGH]

def ackCmd : List CB := [.writeBitsNveMsb, .lit 0, .lit LOW]

def startCmd : List CB :=
  (List.replicate 4 dataLow).flatten ++ (List.replicate 4 clockLowDataLow).flatten

def stopCmd : List CB :=
  (List.replicate 4 clockLowDataLow).flatten ++ (List.replicate 4 dataLow).flatten
    ++ (List.replicate 4 idleCmd).flatten

/-! ## Pure layer of `_do_read` (lines 433-463): command synthesis -/

/-- `read_not_last = self._read_byte + self._ack + self._clock_low_data_high`
(line 435). -/
def readNotLast : List CB := readByteCmd ++ ackCmd ++ clockLowDataHigh

/-- `read_last = self._read_byte + self._nack + self._clock_low_data_high`
(line 436). -/
def readLast : List CB := readByteCmd ++ nackCmd ++ clockLowDataHigh

/-- Chunk size computed at lines 437-442:
`chunk_size = rx_size - 2`, `cmd_size = len(read_last)`,
`tx_count = (tx_size - 1) // cmd_size`, `chunk_size = min(tx_count, chunk_size)`. -/
def chunkSizeUsed (txSize rxSize : Nat) : Nat :=
  min ((txSize - 1) / readLast.length) (rxSize - 2)

/-- One chunk of the `while count:` loop: its `block_count` and whether it
carries the trailing `send immediate` marker (`if count <= 0`, line 457). -/
structure RChunk where
  blockCount : Nat
  immediate : Bool
deriving DecidableEq

/-- The `while count:` loop (lines 447-462), with `count` as fuel: as long
as the chunk size is at least 1, each iteration consumes at least one unit
so `count` iterations always suffice (with chunk size 0 the Python loop
would not terminate). -/
def doReadLoop (csz : Nat) : Nat → Nat → List RChunk
  | 0, _ => []
  | _ + 1, 0 => []
  | fuel + 1, c + 1 =>
      let bc := min (c + 1) csz
      let rest := c + 1 - bc
      ⟨bc, rest = 0⟩ :: doReadLoop csz fuel rest

/-- The chunk decomposition `_do_read` performs for a requested length. -/
def doReadChunks (txSize rxSize readlen : Nat) : List RChunk :=
  doReadLoop (chunkSizeUsed txSize rxSize) readlen readlen

/-- A read-byte command unit is terminated either by an ack bit
(`read_not_last`) or by a nack bit (`read_last`). -/
inductive RUnit where
  | ackTerm
  | nackTerm
deriving DecidableEq

/-- Units synthesized for one chunk:
`cmd.extend(read_not_last * (block_count-1)); cmd.extend(read_last)`
(lines 452-453). -/
def chunkUnits (bc : Nat) : List RUnit :=
  List.replicate (bc - 1) .ackTerm ++ [.nackTerm]

/-- Byte-level command of one chunk, as built at lines 451-459. -/
def chunkCmd (c : RChunk) : List CB :=
  (List.replicate (c.blockCount - 1) readNotLast).flatten ++ readLast
    ++ (if c.immediate then immediateCmd else [])

/-- The read-byte unit stream synthesized across the whole read. -/
def unitStream (txSize rxSize readlen : Nat) : List RUnit :=
  (doReadChunks txSize rxSize readlen).flatMap fun c => chunkUnits c.blockCount

/-- Total bytes returned by `_do_read`: the engine returns `block_count`
bytes per chunk (short replies are a transport failure by the engine
contract), and the chunks are joined. -/
def totalRead (txSize rxSize readlen : Nat) : Nat :=
  ((doReadChunks txSize rxSize readlen).map RChunk.blockCount).sum

def nackCount (units : List RUnit) : Nat :=
  units.countP fun u => match u with | .nackTerm => true | _ => false

example : chunkSizeUsed 19 4 = 2 := by decide
example : doReadChunks 19 4 3 = [⟨2, false⟩, ⟨1, true⟩] := by decide
example : unitStream 19 4 3 = [.ackTerm, .nackTerm, .nackTerm] := by decide
example : totalRead 19 4 3 = 3 := by decide
example : readLast.length = 9 := by decide

/-- Sum of block counts equals the requested length (chunk size ≥ 1,
enough fuel). -/
theorem doReadLoop_sum (csz : Nat) (hc : 1 ≤ csz) :
    ∀ fuel count, count ≤ fuel →
      ((doReadLoop csz fuel count).map RChunk.blockCount).sum = count := by
  intro fuel
  induction fuel with
  | zero => intro count h; interval_cases count; simp [doReadLoop]
  | succ n ih =>
      intro count h
      match count with
      | 0 => simp [doReadLoop]
      | c + 1 =>
          have hbc : 1 ≤ min (c + 1) csz := le_min (by omega) hc
          have hrest : c + 1 - min (c + 1) csz ≤ n := by omega
          simp only [doReadLoop, List.map_cons, List.sum_cons, ih _ hrest]
          omega

/-- Every chunk block count is positive and bounded by the chunk size. -/
theorem doReadLoop_mem (csz : Nat) (hc : 1 ≤ csz) :
    ∀ fuel count c, c ∈ doReadLoop csz fuel count →
      1 ≤ c.blockCount ∧ c.blockCount ≤ csz := by
  intro fuel
  induction fuel with
  | zero => intro count c h; simp [doReadLoop] at h
  | succ n ih =>
      intro count c h
      match count with
      | 0 => simp [doReadLoop] at h
      | k + 1 =>
          simp only [doReadLoop, List.mem_cons] at h
          rcases h with h | h
          · subst h
            exact ⟨le_min (by omega) hc, min_le_right _ _⟩
          · exact ih _ _ h

/-! ## Operational layer: scripted command engine

`Ftdi.write_data` / `Ftdi.read_data_bytes` belong to the external engine.
The engine is modelled by a script: one entry (a byte list, possibly
empty for "no answer") per `read_data_bytes` call, consumed in order.
Commands sent are recorded as abstract trace events. -/

abbrev Reply := List Nat

/-- Trace events: one per engine interaction performed by the i2c layer.
`prologEv a` stands for sending the prolog command built around address
byte `a` (lines 411-418), `writeEv b` for one write-byte command of
`_do_write` (lines 468-473), `readEv bc` for one chunk command of
`_do_read` (line 460), `epilogEv` for sending the stop command (line 429). -/
inductive Ev where
  | prologEv (addrByte : Nat)
  | writeEv (b : Nat)
  | readEv (blockCount : Nat)
  | epilogEv
deriving DecidableEq

/-- Exceptions raised by `i2c.py`, one constructor per raise site.
`nackErr` is `I2cNackError`; every other constructor is a plain
`I2cIOError` with the given message. -/
inductive Err where
  | nackErr
  | noAnswer
  | notInitialized
  | badAddress
  | nothingToRead
  | nothingToWrite
  | payloadTooLarge
  | badWidth
deriving DecidableEq

/-- Spec error taxonomy (spec §7) for the code's exceptions. -/
inductive ErrKind where
  | configuration
  | transport
  | nackKind
  | payload
deriving DecidableEq

def specKind : Err → ErrKind
  | .nackErr => .nackKind
  | .noAnswer => .transport
  | .notInitialized => .configuration
  | .badAddress => .configuration
  | .nothingToRead => .configuration
  | .nothingToWrite => .configuration
  | .payloadTooLarge => .payload
  | .badWidth => .configuration

/-- Engine state: pending scripted replies plus the trace of commands
sent so far. -/
structure S where
  script : List Reply
  trace : List Ev
deriving DecidableEq

/-- One `read_data_bytes` call: consume the next scripted reply (an
exhausted script behaves as "no answer"). -/
def S.pop (s : S) : Reply × S :=
  (s.script.headD [], ⟨s.script.drop 1, s.trace⟩)

def S.emit (s : S) (e : Ev) : S :=
  ⟨s.script, s.trace ++ [e]⟩

/-- `(address << 1) & 0xff` on a Python (arbitrary-precision, possibly
negative) integer: Python's `&` acts on the two's-complement expansion,
which for `& 0xff` coincides with the nonnegative remainder mod 256. -/
def addrByte (address : ℤ) : Nat :=
  ((address * 2) % 256).toNat

/-- `_do_prolog` (lines 409-424): send idle+start+address+read-ack
commands, read one reply byte; no reply is a transport error, an ack
reply with bit 0 set is a NACK. -/
def doProlog (i2caddress : Nat) (s : S) : Except Err Unit × S :=
  let s1 := s.emit (.prologEv i2caddress)
  let (ack, s2) := s1.pop
  match ack with
  | [] => (.error .noAnswer, s2)
  | b :: _ => if b &&& BIT0 ≠ 0 then (.error .nackErr, s2) else (.ok (), s2)

/-- `_do_epilog` (lines 426-431): send the stop command and read and
discard one reply byte. -/
def doEpilog (s : S) : S :=
  ((s.emit .epilogEv).pop).2

/-- `_do_write` (lines 465-482): per byte, send write-byte+read-ack and
read one reply; abort on missing reply or NACK. -/
def doWrite : List Nat → S → Except Err Unit × S
  | [], s => (.ok (), s)
  | b :: rest, s =>
      let s1 := s.emit (.writeEv b)
      let (ack, s2) := s1.pop
      match ack with
      | [] => (.error .noAnswer, s2)
      | a :: _ =>
          if a &&& BIT0 ≠ 0 then (.error .nackErr, s2)
          else doWrite rest s2

/-- The stateful `while count:` loop of `_do_read`: per chunk, send the
chunk command and read `block_count` bytes back, with no length check on
the reply (line 461); chunks are joined at the end. -/
def doReadOp (csz : Nat) : Nat → Nat → S → List Nat × S
  | 0, _, s => ([], s)
  | _ + 1, 0, s => ([], s)
  | fuel + 1, c + 1, s =>
      let bc := min (c + 1) csz
      let s1 := s.emit (.readEv bc)
      let (buf, s2) := s1.pop
      let (restBytes, s3) := doReadOp csz fuel (c + 1 - bc) s2
      (buf ++ restBytes, s3)

/-- `_do_read` over the engine, chunk size computed from the negotiated
capacities exactly as at lines 437-442. -/
def doReadFull (txSize rxSize readlen : Nat) (s : S) : List Nat × S :=
  doReadOp (chunkSizeUsed txSize rxSize) readlen readlen s

/-- `validate_address` (lines 262-265): only the upper bound is checked. -/
def validate_address (address : ℤ) : Except Err Unit :=
  if address > (HIGHEST_I2C_ADDRESS : ℤ) then .error .badAddress else .ok ()

/-- The `while True: try/except I2cNackError/finally` retry loop shared by
`read`, `write` and `exchange` (e.g. lines 297-309), with the remaining
`retries` budget as fuel.  The epilog runs on every exit path of the try
block; a NACK decrements the budget and re-raises when it reaches zero;
any other outcome (success or other error) leaves the loop.  The second
component counts completed attempts. -/
def retryLoop {α : Type} (body : S → Except Err α × S) :
    Nat → S → (Except Err α × Nat) × S
  | 0, s => ((.error .nackErr, 0), s)
  | r + 1, s =>
      let (res, s1) := body s
      let s2 := doEpilog s1
      match res with
      | .error .nackErr =>
          if r = 0 then ((.error .nackErr, 1), s2)
          else
            let ((res2, k), s3) := retryLoop body r s2
            ((res2, k + 1), s3)
      | other => ((other, 1), s2)

/-- Error propagation: a raised exception aborts the remaining
statements of the try block, carrying the engine state along. -/
def step {A B : Type} (m : Except Err A × S)
    (f : A → S → Except Err B × S) : Except Err B × S :=
  match m with
  | (.error e, s1) => (.error e, s1)
  | (.ok x, s1) => f x s1

/-- The body of one `read` attempt: prolog then chunked payload read. -/
def bodyRead (txSize rxSize readlen i2caddress : Nat) (s0 : S) :
    Except Err (List Nat) × S :=
  step (doProlog i2caddress s0) fun _ s1 =>
    let (data, s2) := doReadFull txSize rxSize readlen s1
    (.ok data, s2)

/-- The body of one `write` attempt: prolog then payload write. -/
def bodyWrite (out : List Nat) (i2caddress : Nat) (s0 : S) :
    Except Err Unit × S :=
  step (doProlog i2caddress s0) fun _ s1 => doWrite out s1

/-- The body of one `exchange` attempt: write-direction prolog, payload
write, read-direction prolog, chunked payload read. -/
def bodyExchange (txSize rxSize : Nat) (out : List Nat) (readlen i2caddress : Nat)
    (s0 : S) : Except Err (List Nat) × S :=
  step (doProlog i2caddress s0) fun _ s1 =>
    step (doWrite out s1) fun _ s2 =>
      step (doProlog (i2caddress ||| BIT0) s2) fun _ s3 =>
        let (data, s4) := doReadFull txSize rxSize readlen s3
        (.ok data, s4)

/-- `I2cController.read` (lines 279-309).  `ftdiLive` models
`self._ftdi` being non-None (it is set to an engine handle in `__init__`
and cleared only by `terminate`). -/
def ctrlRead (ftdiLive : Bool) (txSize rxSize : Nat) (address : ℤ)
    (readlen : Nat) (s : S) : (Except Err (List Nat) × Nat) × S :=
  if ¬ftdiLive then ((.error .notInitialized, 0), s)
  else match validate_address address with
  | .error e => ((.error e, 0), s)
  | .ok _ =>
      if readlen < 1 then ((.error .nothingToRead, 0), s)
      else
        retryLoop (bodyRead txSize rxSize readlen (addrByte address ||| BIT0))
          RETRY_COUNT s

/-- `I2cController.write` (lines 311-341). -/
def ctrlWrite (ftdiLive : Bool) (address : ℤ) (out : List Nat) (s : S) :
    (Except Err Unit × Nat) × S :=
  if ¬ftdiLive then ((.error .notInitialized, 0), s)
  else match validate_address address with
  | .error e => ((.error e, 0), s)
  | .ok _ =>
      if out.length < 1 then ((.error .nothingToWrite, 0), s)
      else
        retryLoop (bodyWrite out (addrByte address)) RETRY_COUNT s

/-- `I2cController.exchange` (lines 343-380), with the payload bound
`readlen > PAYLOAD_MAX_LENGTH/3 - 1` evaluated over ℚ (Python computes it
in exact float arithmetic on these small values). -/
def ctrlExchange (ftdiLive : Bool) (txSize rxSize : Nat) (address : ℤ)
    (out : List Nat) (readlen : Nat) (s : S) :
    (Except Err (List Nat) × Nat) × S :=
  if ¬ftdiLive then ((.error .notInitialized, 0), s)
  else match validate_address address with
  | .error e => ((.error e, 0), s)
  | .ok _ =>
      if out.length = 0 then ((.error .nothingToWrite, 0), s)
      else if readlen < 1 then ((.error .nothingToRead, 0), s)
      else if (readlen : ℚ) > (PAYLOAD_MAX_LENGTH : ℚ) / 3 - 1 then
        ((.error .payloadTooLarge, 0), s)
      else
        retryLoop (bodyExchange txSize rxSize out readlen (addrByte address))
          RETRY_COUNT s

/-- `I2cController.poll` (lines 382-401): one attempt, NACK mapped to
`false`, epilog always run. -/
def ctrlPoll (ftdiLive : Bool) (address : ℤ) (s : S) :
    (Except Err Bool × Nat) × S :=
  if ¬ftdiLive then ((.error .notInitialized, 0), s)
  else match validate_address address with
  | .error e => ((.error e, 0), s)
  | .ok _ =>
      let i2caddress := addrByte address ||| BIT0
      let (res, s1) := doProlog i2caddress s
      let s2 := doEpilog s1
      match res with
      | .ok _ => ((.ok true, 1), s2)
      | .error .nackErr => ((.ok false, 1), s2)
      | .error e => ((.error e, 1), s2)

def epilogCount (tr : List Ev) : Nat :=
  tr.countP fun e => match e with | .epilogEv => true | _ => false

/-! ## Controller state, `get_port`, and the slave port wrapper -/

/-- Controller state relevant to `get_port`: whether `self._ftdi` still
holds an engine object, whether `configure` has completed, and the slave
handle cache `self._slaves`. -/
structure Ctrl where
  ftdiLive : Bool
  configured : Bool
  slaves : List (ℤ × Nat)
deriving DecidableEq

/-- `__init__` (lines 180-204): `self._ftdi = Ftdi()` — an engine object
(truthy, per Python object semantics) exists from construction, before
any `configure` call; the slave cache starts empty. -/
def initCtrl : Ctrl := ⟨true, false, []⟩

/-- `terminate` (lines 242-247): closes the engine and sets
`self._ftdi = None`. -/
def terminate (c : Ctrl) : Ctrl := ⟨false, c.configured, c.slaves⟩

/-- `configure` (lines 206-240), reduced to the controller state it
establishes. -/
def configureCtrl (c : Ctrl) : Ctrl := ⟨c.ftdiLive, true, c.slaves⟩

/-- Dictionary lookup in the slave cache (`address in self._slaves`). -/
def findSlave : List (ℤ × Nat) → ℤ → Option Nat
  | [], _ => none
  | (a, i) :: rest, x => if a = x then some i else findSlave rest x

/-- `get_port` (lines 249-260).  Slave handles are identified by creation
order: `I2cPort(self, address)` allocates a fresh instance, cached and
returned on every later call for the same address. -/
def get_port (c : Ctrl) (address : ℤ) : Except Err (Nat × Ctrl) :=
  if ¬c.ftdiLive then .error .notInitialized
  else match validate_address address with
  | .error e => .error e
  | .ok _ =>
      match findSlave c.slaves address with
      | some i => .ok (i, c)
      | none =>
          .ok (c.slaves.length,
               ⟨c.ftdiLive, c.configured, c.slaves ++ [(address, c.slaves.length)]⟩)

/-- Port state of `I2cPort` (lines 63-68): address shift, endianness and
register width (`self._format` is `B`/`H`/`I`, i.e. width 1/2/4;
initially `<` and `B`). -/
structure Port where
  shift : ℤ
  bigendian : Bool
  width : Nat
deriving DecidableEq

def initPort : Port := ⟨0, false, 1⟩

/-- `configure_register` (lines 70-80) with `FORMATS` (line 61): widths
1, 2 and 4 map to a pack format; any other width raises before either
field is assigned, so the previous format survives. -/
def configure_register (p : Port) (bigendian : Bool) (width : Nat) :
    Except Err Port :=
  if width = 1 ∨ width = 2 ∨ width = 4 then
    .ok ⟨p.shift, bigendian, width⟩
  else .error .badWidth

/-- Little-endian byte expansion over `width` bytes: the encoding
`struct.pack` uses for formats `<B`/`<H`/`<I` (big-endian formats
produce the reversed byte order). -/
def leBytes : Nat → Nat → List Nat
  | 0, _ => []
  | w + 1, v => v % 256 :: leBytes w (v / 256)

/-- `_make_buffer` (lines 155-160): the register address packed with the
configured endianness and width, followed by the payload. -/
def make_buffer (p : Port) (regaddr : Nat) (out : List Nat) : List Nat :=
  (if p.bigendian then (leBytes p.width regaddr).reverse
   else leBytes p.width regaddr) ++ out

/-- `write_to` (lines 115-122): delegate to the controller `write` with
the register prefix prepended to the payload. -/
def write_to (ftdiLive : Bool) (p : Port) (address : ℤ) (regaddr : Nat)
    (out : List Nat) (s : S) : (Except Err Unit × Nat) × S :=
  ctrlWrite ftdiLive (address + p.shift) (make_buffer p regaddr out) s

/-! ## Predicates used by the claims -/

/-- No epilog event occurs in `t`. -/
def noEpilog (t : List Ev) : Prop := ∀ e ∈ t, e ≠ Ev.epilogEv

/-- Every scripted reply is present and carries the NACK bit: the slave
negative-acknowledges every prolog attempt. -/
def nackScript (l : List Reply) : Prop :=
  ∀ r ∈ l, r ≠ [] ∧ r.headD 0 &&& BIT0 ≠ 0

instance nackScript.decidable (l : List Reply) : Decidable (nackScript l) :=
  List.decidableBAll _ l

example :
    (ctrlRead true 19 4 0 1 ⟨[[1], [0], [1], [0], [1], [0]], []⟩).1
      = (.error .nackErr, 3) := rfl
example :
    (ctrlPoll true 0 ⟨[[1], [0]], []⟩).1 = (.ok false, 1) := rfl
example :
    (ctrlRead true 19 4 0 2 ⟨[[0], [0, 0], [0]], []⟩).1
      = (.ok [0, 0], 1) := rfl

/-! ## Basic lemmas about the engine model -/

theorem doEpilog_eq (s : S) :
    doEpilog s = ⟨s.script.drop 1, s.trace ++ [.epilogEv]⟩ := rfl

theorem doProlog_snd (a : Nat) (s : S) :
    (doProlog a s).2 = ⟨s.script.drop 1, s.trace ++ [.prologEv a]⟩ := by
  simp only [doProlog, S.emit, S.pop]
  cases s.script.headD [] with
  | nil => rfl
  | cons b t =>
      by_cases h : b &&& BIT0 ≠ 0 <;> simp [h]

theorem doProlog_fst (a : Nat) (s : S) :
    (doProlog a s).1 = .ok () ∨ (doProlog a s).1 = .error .noAnswer
      ∨ (doProlog a s).1 = .error .nackErr := by
  simp only [doProlog, S.emit, S.pop]
  cases s.script.headD [] with
  | nil => simp
  | cons b t =>
      by_cases h : b &&& BIT0 ≠ 0 <;> simp [h]

theorem doWrite_cons (b : Nat) (rest : List Nat) (s : S) :
    doWrite (b :: rest) s =
      match s.script.headD [] with
      | [] => (.error .noAnswer, ⟨s.script.drop 1, s.trace ++ [.writeEv b]⟩)
      | a :: _ =>
          if a &&& BIT0 ≠ 0 then
            (.error .nackErr, ⟨s.script.drop 1, s.trace ++ [.writeEv b]⟩)
          else doWrite rest ⟨s.script.drop 1, s.trace ++ [.writeEv b]⟩ := by
  cases s; rfl

theorem doWrite_cons_none (b : Nat) (rest : List Nat) (s : S)
    (h : s.script.headD [] = []) :
    doWrite (b :: rest) s
      = (.error .noAnswer, ⟨s.script.drop 1, s.trace ++ [.writeEv b]⟩) := by
  rw [doWrite_cons, h]

theorem doWrite_cons_nack (b : Nat) (rest : List Nat) (s : S) (a : Nat)
    (tl : List Nat) (h : s.script.headD [] = a :: tl) (hb : a &&& BIT0 ≠ 0) :
    doWrite (b :: rest) s
      = (.error .nackErr, ⟨s.script.drop 1, s.trace ++ [.writeEv b]⟩) := by
  rw [doWrite_cons, h]
  exact if_pos hb

theorem doWrite_cons_ack (b : Nat) (rest : List Nat) (s : S) (a : Nat)
    (tl : List Nat) (h : s.script.headD [] = a :: tl) (hb : ¬a &&& BIT0 ≠ 0) :
    doWrite (b :: rest) s
      = doWrite rest ⟨s.script.drop 1, s.trace ++ [.writeEv b]⟩ := by
  rw [doWrite_cons, h]
  exact if_neg hb

theorem epilogCount_append (t u : List Ev) :
    epilogCount (t ++ u) = epilogCount t + epilogCount u := by
  simp [epilogCount]

theorem epilogCount_noEpilog (t : List Ev) (h : noEpilog t) :
    epilogCount t = 0 := by
  simp only [epilogCount, List.countP_eq_zero]
  intro e he
  have := h e he
  cases e <;> simp_all

theorem noEpilog_nil : noEpilog [] := by
  intro e he; simp at he

theorem noEpilog_cons (e : Ev) (t : List Ev) (he : e ≠ Ev.epilogEv)
    (ht : noEpilog t) : noEpilog (e :: t) := by
  intro x hx
  rcases List.mem_cons.mp hx with h | h
  · subst h; exact he
  · exact ht x h

theorem noEpilog_append (t u : List Ev) (ht : noEpilog t) (hu : noEpilog u) :
    noEpilog (t ++ u) := by
  intro x hx
  rcases List.mem_append.mp hx with h | h
  · exact ht x h
  · exact hu x h

/-- Trace extension for `_do_write`: it only appends write events. -/
theorem doWrite_ext (out : List Nat) :
    ∀ s : S, ∃ t, (doWrite out s).2.trace = s.trace ++ t ∧ noEpilog t := by
  induction out with
  | nil => intro s; exact ⟨[], by simp [doWrite], noEpilog_nil⟩
  | cons b rest ih =>
      intro s
      cases hh : s.script.headD [] with
      | nil =>
          rw [doWrite_cons_none b rest s hh]
          exact ⟨[.writeEv b], rfl, noEpilog_cons _ _ (by simp) noEpilog_nil⟩
      | cons a tl =>
          by_cases hb : a &&& BIT0 ≠ 0
          · rw [doWrite_cons_nack b rest s a tl hh hb]
            exact ⟨[.writeEv b], rfl, noEpilog_cons _ _ (by simp) noEpilog_nil⟩
          · rw [doWrite_cons_ack b rest s a tl hh hb]
            obtain ⟨t, ht, hne⟩ := ih ⟨s.script.drop 1, s.trace ++ [.writeEv b]⟩
            refine ⟨.writeEv b :: t, ?_, noEpilog_cons _ _ (by simp) hne⟩
            rw [ht]
            simp

theorem doReadOp_snd (csz n c : Nat) (s : S) :
    (doReadOp csz (n + 1) (c + 1) s).2
      = (doReadOp csz n (c + 1 - min (c + 1) csz)
          ⟨s.script.drop 1, s.trace ++ [.readEv (min (c + 1) csz)]⟩).2 := by
  cases s; rfl

/-- Trace extension for the stateful `_do_read` loop: it only appends
read-chunk events. -/
theorem doReadOp_ext (csz : Nat) :
    ∀ fuel count (s : S),
      ∃ t, (doReadOp csz fuel count s).2.trace = s.trace ++ t ∧ noEpilog t := by
  intro fuel
  induction fuel with
  | zero => intro count s; exact ⟨[], by simp [doReadOp], noEpilog_nil⟩
  | succ n ih =>
      intro count s
      match count with
      | 0 => exact ⟨[], by simp [doReadOp], noEpilog_nil⟩
      | c + 1 =>
          rw [doReadOp_snd]
          obtain ⟨t, ht, hne⟩ :=
            ih (c + 1 - min (c + 1) csz)
              ⟨s.script.drop 1, s.trace ++ [.readEv (min (c + 1) csz)]⟩
          refine ⟨.readEv (min (c + 1) csz) :: t, ?_,
                  noEpilog_cons _ _ (by simp) hne⟩
          rw [ht]
          simp

/-- One unfolding of the retry loop. -/
theorem retryLoop_succ {α : Type} (body : S → Except Err α × S) (r : Nat) (s : S) :
    retryLoop body (r + 1) s =
      match (body s).1 with
      | .error .nackErr =>
          if r = 0 then ((.error .nackErr, 1), doEpilog (body s).2)
          else
            let p := retryLoop body r (doEpilog (body s).2)
            ((p.1.1, p.1.2 + 1), p.2)
      | other => ((other, 1), doEpilog (body s).2) := by
  cases hb : body s with
  | mk res s1 => simp only [retryLoop, hb]

/-- The epilog runs exactly once per attempt: if the body never emits an
epilog event, the number of epilog events grows by exactly the attempt
count. -/
theorem retryLoop_epilogCount {α : Type} (body : S → Except Err α × S)
    (hb : ∀ s0, ∃ t, (body s0).2.trace = s0.trace ++ t ∧ noEpilog t) :
    ∀ r (s : S),
      epilogCount (retryLoop body r s).2.trace
        = epilogCount s.trace + (retryLoop body r s).1.2 := by
  intro r
  induction r with
  | zero => intro s; simp [retryLoop]
  | succ n ih =>
      intro s
      obtain ⟨t, ht, hne⟩ := hb s
      have hepi : epilogCount (doEpilog (body s).2).trace
          = epilogCount s.trace + 1 := by
        rw [doEpilog_eq]
        show epilogCount ((body s).2.trace ++ [Ev.epilogEv]) = _
        rw [ht, epilogCount_append, epilogCount_append,
            epilogCount_noEpilog _ hne]
        simp [epilogCount]
      rw [retryLoop_succ]
      cases hres : (body s).1 with
      | ok a => simpa using hepi
      | error e =>
          cases e with
          | nackErr =>
              by_cases hr : n = 0
              · rw [if_pos hr]
                simpa using hepi
              · rw [if_neg hr]
                show epilogCount (retryLoop body n (doEpilog (body s).2)).2.trace
                  = epilogCount s.trace
                    + ((retryLoop body n (doEpilog (body s).2)).1.2 + 1)
                rw [ih (doEpilog (body s).2), hepi]
                omega
          | noAnswer => simpa using hepi
          | notInitialized => simpa using hepi
          | badAddress => simpa using hepi
          | nothingToRead => simpa using hepi
          | nothingToWrite => simpa using hepi
          | payloadTooLarge => simpa using hepi
          | badWidth => simpa using hepi

/-- Results of the retry loop come from the body or are the NACK error. -/
theorem retryLoop_result {α : Type} (body : S → Except Err α × S)
    (P : Except Err α → Prop) (hP : ∀ s0, P (body s0).1)
    (hnack : P (.error .nackErr)) :
    ∀ r (s : S), P (retryLoop body r s).1.1 := by
  intro r
  induction r with
  | zero => intro s; exact hnack
  | succ n ih =>
      intro s
      rw [retryLoop_succ]
      have hPs := hP s
      cases hres : (body s).1 with
      | ok a =>
          rw [hres] at hPs
          simpa using hPs
      | error e =>
          rw [hres] at hPs
          cases e with
          | nackErr =>
              by_cases hr : n = 0
              · rw [if_pos hr]; exact hnack
              · rw [if_neg hr]
                exact ih (doEpilog (body s).2)
          | noAnswer => simpa using hPs
          | notInitialized => simpa using hPs
          | badAddress => simpa using hPs
          | nothingToRead => simpa using hPs
          | nothingToWrite => simpa using hPs
          | payloadTooLarge => simpa using hPs
          | badWidth => simpa using hPs

/-- The `read` attempt body only appends a prolog event followed by
non-epilog events. -/
theorem bodyRead_ext (tx rx n a : Nat) (s0 : S) :
    ∃ t, (bodyRead tx rx n a s0).2.trace = s0.trace ++ Ev.prologEv a :: t
      ∧ noEpilog (Ev.prologEv a :: t) := by
  unfold bodyRead
  rcases hdp : doProlog a s0 with ⟨res, s1⟩
  have hs1 : s1 = ⟨s0.script.drop 1, s0.trace ++ [.prologEv a]⟩ := by
    have h := doProlog_snd a s0
    rw [hdp] at h
    exact h
  cases res with
  | error e =>
      simp only [hdp, step]
      exact ⟨[], by simp [hs1], noEpilog_cons _ _ (by simp) noEpilog_nil⟩
  | ok u =>
      simp only [hdp, step]
      obtain ⟨t, ht, hne⟩ := doReadOp_ext (chunkSizeUsed tx rx) n n s1
      refine ⟨t, ?_, noEpilog_cons _ _ (by simp) hne⟩
      show (doReadFull tx rx n s1).2.trace = _
      unfold doReadFull
      rw [ht, hs1]
      simp

/-- The `write` attempt body only appends a prolog event followed by
non-epilog events. -/
theorem bodyWrite_ext (out : List Nat) (a : Nat) (s0 : S) :
    ∃ t, (bodyWrite out a s0).2.trace = s0.trace ++ Ev.prologEv a :: t
      ∧ noEpilog (Ev.prologEv a :: t) := by
  unfold bodyWrite
  rcases hdp : doProlog a s0 with ⟨res, s1⟩
  have hs1 : s1 = ⟨s0.script.drop 1, s0.trace ++ [.prologEv a]⟩ := by
    have h := doProlog_snd a s0
    rw [hdp] at h
    exact h
  cases res with
  | error e =>
      simp only [hdp, step]
      exact ⟨[], by simp [hs1], noEpilog_cons _ _ (by simp) noEpilog_nil⟩
  | ok u =>
      simp only [hdp, step]
      obtain ⟨t, ht, hne⟩ := doWrite_ext out s1
      refine ⟨t, ?_, noEpilog_cons _ _ (by simp) hne⟩
      rw [ht, hs1]
      simp

/-- The `exchange` attempt body only appends a prolog event followed by
non-epilog events. -/
theorem bodyExchange_ext (tx rx : Nat) (out : List Nat) (n a : Nat) (s0 : S) :
    ∃ t, (bodyExchange tx rx out n a s0).2.trace = s0.trace ++ Ev.prologEv a :: t
      ∧ noEpilog (Ev.prologEv a :: t) := by
  unfold bodyExchange
  rcases hdp : doProlog a s0 with ⟨res, s1⟩
  have hs1 : s1 = ⟨s0.script.drop 1, s0.trace ++ [.prologEv a]⟩ := by
    have h := doProlog_snd a s0
    rw [hdp] at h
    exact h
  cases res with
  | error e =>
      simp only [hdp, step]
      exact ⟨[], by simp [hs1], noEpilog_cons _ _ (by simp) noEpilog_nil⟩
  | ok u =>
      simp only [hdp, step]
      obtain ⟨tw, htw, hnw⟩ := doWrite_ext out s1
      rcases hdw : doWrite out s1 with ⟨resw, s2⟩
      rw [hdw] at htw
      cases resw with
      | error e =>
          simp only [hdw, step]
          refine ⟨tw, ?_, noEpilog_cons _ _ (by simp) hnw⟩
          show s2.trace = _
          rw [htw, hs1]
          simp
      | ok v =>
          simp only [hdw, step]
          rcases hdp2 : doProlog (a ||| BIT0) s2 with ⟨res2, s3⟩
          have hs3 : s3 = ⟨s2.script.drop 1, s2.trace ++ [.prologEv (a ||| BIT0)]⟩ := by
            have h := doProlog_snd (a ||| BIT0) s2
            rw [hdp2] at h
            exact h
          cases res2 with
          | error e =>
              simp only [hdp2, step]
              refine ⟨tw ++ [.prologEv (a ||| BIT0)], ?_, ?_⟩
              · show s3.trace = _
                rw [hs3, htw, hs1]
                simp
              · exact noEpilog_cons _ _ (by simp)
                  (noEpilog_append _ _ hnw
                    (noEpilog_cons _ _ (by simp) noEpilog_nil))
          | ok w =>
              simp only [hdp2, step]
              obtain ⟨tr, htr, hnr⟩ := doReadOp_ext (chunkSizeUsed tx rx) n n s3
              refine ⟨tw ++ .prologEv (a ||| BIT0) :: tr, ?_, ?_⟩
              · show (doReadFull tx rx n s3).2.trace = _
                unfold doReadFull
                rw [htr, hs3, htw, hs1]
                simp
              · exact noEpilog_cons _ _ (by simp)
                  (noEpilog_append _ _ hnw
                    (noEpilog_cons _ _ (by simp) hnr))

/-! ## Validation lemmas -/

theorem validate_address_ok (a : ℤ) (h : a ≤ 127) :
    validate_address a = .ok () := by
  have hng : ¬a > (HIGHEST_I2C_ADDRESS : ℤ) := by
    unfold HIGHEST_I2C_ADDRESS
    push_cast
    omega
  unfold validate_address
  rw [if_neg hng]

theorem validate_address_gt (a : ℤ) (h : 127 < a) :
    validate_address a = .error .badAddress := by
  have hg : a > (HIGHEST_I2C_ADDRESS : ℤ) := by
    unfold HIGHEST_I2C_ADDRESS
    push_cast
    omega
  unfold validate_address
  rw [if_pos hg]

/-! ## C2: the epilog runs exactly once per attempt -/

/-- C2: on every exit path of `read`, `write`, `exchange` and `poll` —
success, negative acknowledgement, or any other error — the epilog
(stop sequence sent to the engine, one reply byte read and discarded) is
executed exactly once per attempt: for every engine script, controller
liveness and arguments, the number of epilog events in the final trace
exceeds the initial one by exactly the number of attempts performed,
even after a failed prolog or a mid-payload NACK. -/
theorem epilog_once_per_attempt (live : Bool) (txSize rxSize : Nat)
    (address : ℤ) (readlen : Nat) (out : List Nat) (s : S) :
    epilogCount (ctrlRead live txSize rxSize address readlen s).2.trace
        = epilogCount s.trace
          + (ctrlRead live txSize rxSize address readlen s).1.2
  ∧ epilogCount (ctrlWrite live address out s).2.trace
        = epilogCount s.trace + (ctrlWrite live address out s).1.2
  ∧ epilogCount (ctrlExchange live txSize rxSize address out readlen s).2.trace
        = epilogCount s.trace
          + (ctrlExchange live txSize rxSize address out readlen s).1.2
  ∧ epilogCount (ctrlPoll live address s).2.trace
        = epilogCount s.trace + (ctrlPoll live address s).1.2 := by
  refine ⟨?_, ?_, ?_, ?_⟩
  · unfold ctrlRead
    split
    · simp
    · split
      · simp
      · split
        · simp
        · refine retryLoop_epilogCount _ (fun s0 => ?_) RETRY_COUNT s
          obtain ⟨t, ht, hne⟩ :=
            bodyRead_ext txSize rxSize readlen (addrByte address ||| BIT0) s0
          exact ⟨Ev.prologEv (addrByte address ||| BIT0) :: t, ht, hne⟩
  · unfold ctrlWrite
    split
    · simp
    · split
      · simp
      · split
        · simp
        · refine retryLoop_epilogCount _ (fun s0 => ?_) RETRY_COUNT s
          obtain ⟨t, ht, hne⟩ := bodyWrite_ext out (addrByte address) s0
          exact ⟨Ev.prologEv (addrByte address) :: t, ht, hne⟩
  · unfold ctrlExchange
    split
    · simp
    · split
      · simp
      · split
        · simp
        · split
          · simp
          · split
            · simp
            · refine retryLoop_epilogCount _ (fun s0 => ?_) RETRY_COUNT s
              obtain ⟨t, ht, hne⟩ :=
                bodyExchange_ext txSize rxSize out readlen (addrByte address) s0
              exact ⟨Ev.prologEv (addrByte address) :: t, ht, hne⟩
  · unfold ctrlPoll
    split
    · simp
    · split
      · simp
      · rcases hdp : doProlog (addrByte address ||| BIT0) s with ⟨res, s1⟩
        have hs1 : s1 = ⟨s.script.drop 1,
            s.trace ++ [.prologEv (addrByte address ||| BIT0)]⟩ := by
          have h := doProlog_snd (addrByte address ||| BIT0) s
          rw [hdp] at h
          exact h
        have hepi : epilogCount (doEpilog s1).trace
            = epilogCount s.trace + 1 := by
          rw [doEpilog_eq]
          show epilogCount (s1.trace ++ [Ev.epilogEv]) = _
          rw [hs1]
          show epilogCount ((s.trace ++ _) ++ _) = _
          rw [epilogCount_append, epilogCount_append]
          simp [epilogCount]
        simp only [hdp]
        cases res with
        | ok b => simpa using hepi
        | error e => cases e <;> simpa using hepi

/-! ## C3: retry counts under an all-NACK scripted engine -/

theorem nackScript_drop (l : List Reply) (h : nackScript l) (k : Nat) :
    nackScript (l.drop k) :=
  fun r hr => h r (List.mem_of_mem_drop hr)

theorem doProlog_nackScript (a : Nat) (s : S) (hs : nackScript s.script)
    (hne : s.script ≠ []) :
    doProlog a s
      = (.error .nackErr, ⟨s.script.drop 1, s.trace ++ [.prologEv a]⟩) := by
  obtain ⟨r, rest, hr⟩ : ∃ r rest, s.script = r :: rest := by
    cases hsc : s.script with
    | nil => exact absurd hsc hne
    | cons r rest => exact ⟨r, rest, rfl⟩
  obtain ⟨hrne, hbit⟩ := hs r (by rw [hr]; exact List.mem_cons_self _ _)
  obtain ⟨b, tl, hb⟩ : ∃ b tl, r = b :: tl := by
    cases hrc : r with
    | nil => exact absurd hrc hrne
    | cons b tl => exact ⟨b, tl, rfl⟩
  have hbitb : b &&& BIT0 ≠ 0 := by
    rw [hb] at hbit
    simpa using hbit
  simp only [doProlog, S.emit, S.pop, hr, hb]
  simp [hbitb]

theorem doProlog_noAnswer_eq (a : Nat) (s : S) (h : s.script.headD [] = []) :
    doProlog a s
      = (.error .noAnswer, ⟨s.script.drop 1, s.trace ++ [.prologEv a]⟩) := by
  simp only [doProlog, S.emit, S.pop, h]

theorem bodyRead_nack (tx rx n a : Nat) (s0 : S) (hs : nackScript s0.script)
    (hne : s0.script ≠ []) :
    bodyRead tx rx n a s0
      = (.error .nackErr, ⟨s0.script.drop 1, s0.trace ++ [.prologEv a]⟩) := by
  unfold bodyRead
  rw [doProlog_nackScript a s0 hs hne]
  rfl

theorem bodyWrite_nack (out : List Nat) (a : Nat) (s0 : S)
    (hs : nackScript s0.script) (hne : s0.script ≠ []) :
    bodyWrite out a s0
      = (.error .nackErr, ⟨s0.script.drop 1, s0.trace ++ [.prologEv a]⟩) := by
  unfold bodyWrite
  rw [doProlog_nackScript a s0 hs hne]
  rfl

theorem bodyExchange_nack (tx rx : Nat) (out : List Nat) (n a : Nat) (s0 : S)
    (hs : nackScript s0.script) (hne : s0.script ≠ []) :
    bodyExchange tx rx out n a s0
      = (.error .nackErr, ⟨s0.script.drop 1, s0.trace ++ [.prologEv a]⟩) := by
  unfold bodyExchange
  rw [doProlog_nackScript a s0 hs hne]
  rfl

/-- Under an all-NACK script long enough to feed every prolog, the retry
loop performs exactly `r` attempts and surfaces the NACK error. -/
theorem retryLoop_nackScript {α : Type} (body : S → Except Err α × S)
    (hbody : ∀ s0 : S, nackScript s0.script → s0.script ≠ [] →
       body s0 = (.error .nackErr,
                  ⟨s0.script.drop 1, (body s0).2.trace⟩)) :
    ∀ r (s : S), 1 ≤ r → nackScript s.script → 2 * r ≤ s.script.length + 1 →
      (retryLoop body r s).1 = (.error .nackErr, r) := by
  intro r
  induction r with
  | zero => intro s h1; omega
  | succ n ih =>
      intro s h1 hns hlen
      have hne : s.script ≠ [] := by
        intro hnil
        rw [hnil] at hlen
        simp at hlen
        omega
      have hb := hbody s hns hne
      have hres : (body s).1 = .error .nackErr := by rw [hb]
      have hscr : (body s).2.script = s.script.drop 1 := by
        conv_lhs => rw [hb]
      rw [retryLoop_succ, hres]
      by_cases hn : n = 0
      · rw [if_pos hn, hn]
      · rw [if_neg hn]
        have hscript2 : (doEpilog (body s).2).script = (s.script.drop 1).drop 1 := by
          rw [doEpilog_eq]
          show (body s).2.script.drop 1 = _
          rw [hscr]
        have hlen2 : 2 * n ≤ (doEpilog (body s).2).script.length + 1 := by
          rw [hscript2]
          simp only [List.length_drop]
          omega
        have hns2 : nackScript (doEpilog (body s).2).script := by
          rw [hscript2]
          exact nackScript_drop _ (nackScript_drop _ hns 1) 1
        have ih2 := ih (doEpilog (body s).2) (by omega) hns2 hlen2
        show ((retryLoop body n (doEpilog (body s).2)).1.1,
              (retryLoop body n (doEpilog (body s).2)).1.2 + 1)
            = (Except.error Err.nackErr, n + 1)
        rw [ih2]

/-- If the body fails with the transport error, the loop stops after one
attempt. -/
theorem retryLoop_noAnswer {α : Type} (body : S → Except Err α × S)
    (r : Nat) (s : S) (h : (body s).1 = .error .noAnswer) :
    (retryLoop body (r + 1) s).1 = (.error .noAnswer, 1) := by
  rw [retryLoop_succ, h]

theorem bodyRead_noAnswer (tx rx n a : Nat) (s0 : S)
    (h : s0.script.headD [] = []) :
    (bodyRead tx rx n a s0).1 = .error .noAnswer := by
  unfold bodyRead
  rw [doProlog_noAnswer_eq a s0 h]
  rfl

/-- The exact rational bound `readlen > 0x10000/3 - 1` of `exchange`
holds for an integer `readlen` precisely when `readlen > 21844`. -/
theorem payload_cond_iff (n : Nat) :
    ((n : ℚ) > (PAYLOAD_MAX_LENGTH : ℚ) / 3 - 1) ↔ 21844 < n := by
  unfold PAYLOAD_MAX_LENGTH
  rw [gt_iff_lt, sub_lt_iff_lt_add, div_lt_iff (by norm_num : (0:ℚ) < 3)]
  constructor
  · intro h
    have h2 : ((0x10000 : Nat) : ℚ) < (((n + 1) * 3 : Nat) : ℚ) := by
      push_cast
      push_cast at h
      linarith
    have h3 : (0x10000 : Nat) < (n + 1) * 3 := by exact_mod_cast h2
    omega
  · intro h
    have h3 : (0x10000 : Nat) < (n + 1) * 3 := by omega
    have h2 : ((0x10000 : Nat) : ℚ) < (((n + 1) * 3 : Nat) : ℚ) := by
      exact_mod_cast h3
    push_cast at h2
    push_cast
    linarith

/-- With valid arguments, `read` is the retry loop over its body. -/
theorem ctrlRead_run (tx rx : Nat) (a : ℤ) (n : Nat) (s : S)
    (ha : a ≤ 127) (hn : 1 ≤ n) :
    ctrlRead true tx rx a n s
      = retryLoop (bodyRead tx rx n (addrByte a ||| BIT0)) RETRY_COUNT s := by
  have h2 : ¬(n < 1) := by omega
  simp only [ctrlRead, validate_address_ok a ha, h2]
  simp

/-- With valid arguments, `write` is the retry loop over its body. -/
theorem ctrlWrite_run (a : ℤ) (out : List Nat) (s : S)
    (ha : a ≤ 127) (hout : out ≠ []) :
    ctrlWrite true a out s
      = retryLoop (bodyWrite out (addrByte a)) RETRY_COUNT s := by
  have h1 : ¬(out.length < 1) := by
    have := List.length_pos.mpr hout
    omega
  simp only [ctrlWrite, validate_address_ok a ha, h1]
  simp

/-- With valid arguments, `exchange` is the retry loop over its body. -/
theorem ctrlExchange_run (tx rx : Nat) (a : ℤ) (out : List Nat) (n : Nat)
    (s : S) (ha : a ≤ 127) (hout : out ≠ []) (hn : 1 ≤ n) (hp : n ≤ 21844) :
    ctrlExchange true tx rx a out n s
      = retryLoop (bodyExchange tx rx out n (addrByte a)) RETRY_COUNT s := by
  have h1 : ¬(out.length = 0) := by simpa using hout
  have h2 : ¬(n < 1) := by omega
  have h3 : ¬((n : ℚ) > (PAYLOAD_MAX_LENGTH : ℚ) / 3 - 1) := by
    rw [payload_cond_iff]
    omega
  simp only [ctrlExchange, validate_address_ok a ha, h1, h2, h3]
  simp

/-- C3: if the slave answers every prolog attempt with a negative
acknowledgement (all-NACK script, at least 5 scripted replies), `read`,
`write` and `exchange` perform exactly 3 complete attempts and then fail
with the NACK error, while `poll` performs exactly 1 attempt and returns
`false`; only NACK is retried — a transport failure on the first prolog
stops after exactly 1 attempt, and a validation failure performs 0
attempts. -/
theorem retry_bound_on_nack :
    (∀ (tx rx : Nat) (a : ℤ) (n : Nat) (s : S),
       nackScript s.script → 5 ≤ s.script.length → a ≤ 127 → 1 ≤ n →
       (ctrlRead true tx rx a n s).1 = (.error .nackErr, 3))
  ∧ (∀ (a : ℤ) (out : List Nat) (s : S),
       nackScript s.script → 5 ≤ s.script.length → a ≤ 127 → out ≠ [] →
       (ctrlWrite true a out s).1 = (.error .nackErr, 3))
  ∧ (∀ (tx rx : Nat) (a : ℤ) (out : List Nat) (n : Nat) (s : S),
       nackScript s.script → 5 ≤ s.script.length → a ≤ 127 → out ≠ [] →
       1 ≤ n → n ≤ 21844 →
       (ctrlExchange true tx rx a out n s).1 = (.error .nackErr, 3))
  ∧ (∀ (a : ℤ) (s : S),
       nackScript s.script → s.script ≠ [] → a ≤ 127 →
       (ctrlPoll true a s).1 = (.ok false, 1))
  ∧ (∀ (tx rx : Nat) (a : ℤ) (n : Nat) (s : S),
       s.script.headD [] = [] → a ≤ 127 → 1 ≤ n →
       (ctrlRead true tx rx a n s).1 = (.error .noAnswer, 1))
  ∧ (∀ (tx rx : Nat) (a : ℤ) (s : S),
       a ≤ 127 →
       (ctrlRead true tx rx a 0 s).1 = (.error .nothingToRead, 0)) := by
  refine ⟨?_, ?_, ?_, ?_, ?_, ?_⟩
  · intro tx rx a n s hns hlen ha hn
    rw [ctrlRead_run tx rx a n s ha hn]
    refine retryLoop_nackScript _ (fun s0 hs0 hne0 => ?_) RETRY_COUNT s
      (by decide) hns (by unfold RETRY_COUNT; omega)
    rw [bodyRead_nack tx rx n (addrByte a ||| BIT0) s0 hs0 hne0]
  · intro a out s hns hlen ha hout
    rw [ctrlWrite_run a out s ha hout]
    refine retryLoop_nackScript _ (fun s0 hs0 hne0 => ?_) RETRY_COUNT s
      (by decide) hns (by unfold RETRY_COUNT; omega)
    rw [bodyWrite_nack out (addrByte a) s0 hs0 hne0]
  · intro tx rx a out n s hns hlen ha hout hn hp
    rw [ctrlExchange_run tx rx a out n s ha hout hn hp]
    refine retryLoop_nackScript _ (fun s0 hs0 hne0 => ?_) RETRY_COUNT s
      (by decide) hns (by unfold RETRY_COUNT; omega)
    rw [bodyExchange_nack tx rx out n (addrByte a) s0 hs0 hne0]
  · intro a s hns hne ha
    have h := doProlog_nackScript (addrByte a ||| BIT0) s hns hne
    simp only [ctrlPoll, validate_address_ok a ha, h]
    simp
  · intro tx rx a n s hh ha hn
    rw [ctrlRead_run tx rx a n s ha hn]
    exact retryLoop_noAnswer _ 2 s
      (bodyRead_noAnswer tx rx n (addrByte a ||| BIT0) s hh)
  · intro tx rx a s ha
    simp only [ctrlRead, validate_address_ok a ha]
    simp

/-- Concrete instantiation of the retry-count properties: an all-NACK
six-entry script, address 0, one-byte transfers. -/
theorem retry_bound_on_nack_witness :
    (ctrlRead true 19 4 0 1 ⟨List.replicate 6 [1], []⟩).1
        = (.error .nackErr, 3)
  ∧ (ctrlWrite true 0 [5] ⟨List.replicate 6 [1], []⟩).1
        = (.error .nackErr, 3)
  ∧ (ctrlExchange true 19 4 0 [5] 1 ⟨List.replicate 6 [1], []⟩).1
        = (.error .nackErr, 3)
  ∧ (ctrlPoll true 0 ⟨List.replicate 6 [1], []⟩).1 = (.ok false, 1)
  ∧ (ctrlRead true 19 4 0 1 ⟨[], []⟩).1 = (.error .noAnswer, 1)
  ∧ (ctrlRead true 19 4 0 0 ⟨[], []⟩).1 = (.error .nothingToRead, 0) :=
  ⟨retry_bound_on_nack.1 19 4 0 1 _ (by decide) (by decide) (by decide)
      (by decide),
   retry_bound_on_nack.2.1 0 [5] _ (by decide) (by decide) (by decide)
      (by decide),
   retry_bound_on_nack.2.2.1 19 4 0 [5] 1 _ (by decide) (by decide)
      (by decide) (by decide) (by decide) (by decide),
   retry_bound_on_nack.2.2.2.1 0 _ (by decide) (by decide) (by decide),
   retry_bound_on_nack.2.2.2.2.1 19 4 0 1 _ (by decide) (by decide)
      (by decide),
   retry_bound_on_nack.2.2.2.2.2 19 4 0 _ (by decide)⟩

/-! ## C5: payload bound of `exchange` -/

theorem doWrite_fst (out : List Nat) :
    ∀ s : S, (doWrite out s).1 = .ok () ∨ (doWrite out s).1 = .error .noAnswer
      ∨ (doWrite out s).1 = .error .nackErr := by
  induction out with
  | nil => intro s; left; rfl
  | cons b rest ih =>
      intro s
      cases hh : s.script.headD [] with
      | nil =>
          rw [doWrite_cons_none b rest s hh]
          right; left; rfl
      | cons a tl =>
          by_cases hb : a &&& BIT0 ≠ 0
          · rw [doWrite_cons_nack b rest s a tl hh hb]
            right; right; rfl
          · rw [doWrite_cons_ack b rest s a tl hh hb]
            exact ih _

theorem bodyExchange_fst_ne_payload (tx rx : Nat) (out : List Nat)
    (n a : Nat) (s0 : S) :
    (bodyExchange tx rx out n a s0).1 ≠ .error .payloadTooLarge := by
  unfold bodyExchange
  rcases hdp : doProlog a s0 with ⟨res, s1⟩
  have hf := doProlog_fst a s0
  rw [hdp] at hf
  rcases hf with hf | hf | hf <;> rw [show res = _ from hf] <;>
    simp only [step]
  · rcases hfw : doWrite out s1 with ⟨resw, s2⟩
    have hfw2 := doWrite_fst out s1
    rw [hfw] at hfw2
    rcases hfw2 with h2 | h2 | h2 <;> rw [show resw = _ from h2] <;>
      simp only [step]
    · rcases hdp2 : doProlog (a ||| BIT0) s2 with ⟨res2, s3⟩
      have hf3 := doProlog_fst (a ||| BIT0) s2
      rw [hdp2] at hf3
      rcases hf3 with h3 | h3 | h3 <;> rw [show res2 = _ from h3] <;>
        simp only [step] <;> simp
    · simp
    · simp
  · simp
  · simp

/-- C5: `exchange` raises PayloadTooLarge exactly when the requested read
length exceeds `0x10000/3 - 1` (maximum accepted readlen 21844), and this
rejection — like all of `exchange`'s argument validation — happens with
zero attempts and no engine interaction (the engine state is untouched). -/
theorem exchange_payload_validation (tx rx : Nat) (a : ℤ) (out : List Nat)
    (n : Nat) (s : S) :
    (a ≤ 127 → out ≠ [] → 1 ≤ n →
       (((ctrlExchange true tx rx a out n s).1.1
           = .error .payloadTooLarge) ↔ 21844 < n))
  ∧ (a ≤ 127 → out ≠ [] → 21844 < n →
       ctrlExchange true tx rx a out n s = ((.error .payloadTooLarge, 0), s))
  ∧ (127 < a ∨ out = [] ∨ n = 0 →
       (ctrlExchange true tx rx a out n s).2 = s
         ∧ (ctrlExchange true tx rx a out n s).1.2 = 0) := by
  have hbig : a ≤ 127 → out ≠ [] → 21844 < n →
      ctrlExchange true tx rx a out n s = ((.error .payloadTooLarge, 0), s) := by
    intro ha hout h21
    have h1 : ¬(out.length = 0) := by simpa using hout
    have h2 : ¬(n < 1) := by omega
    have h3 : ((n : ℚ) > (PAYLOAD_MAX_LENGTH : ℚ) / 3 - 1) :=
      (payload_cond_iff n).mpr h21
    simp only [ctrlExchange, validate_address_ok a ha, h1, h2, h3]
    simp
  refine ⟨?_, hbig, ?_⟩
  · intro ha hout hn
    constructor
    · intro hres
      by_contra hle
      push_neg at hle
      rw [ctrlExchange_run tx rx a out n s ha hout hn hle] at hres
      exact retryLoop_result _ (fun r => r ≠ .error .payloadTooLarge)
        (fun s0 => bodyExchange_fst_ne_payload tx rx out n (addrByte a) s0)
        (by simp) RETRY_COUNT s hres
    · intro h21
      rw [hbig ha hout h21]
  · intro h
    unfold ctrlExchange
    split
    · exact ⟨rfl, rfl⟩
    · split
      · exact ⟨rfl, rfl⟩
      · split
        · exact ⟨rfl, rfl⟩
        · split
          · exact ⟨rfl, rfl⟩
          · split
            · exact ⟨rfl, rfl⟩
            · exfalso
              rename_i hok hlen hlt hq
              rcases h with h | h | h
              · rw [validate_address_gt a h] at hok
                simp at hok
              · rw [h] at hlen
                simp at hlen
              · omega

/-- Concrete instantiation: readlen 21845 is rejected with no engine
contact, 21844 is not rejected as too large, and an oversized address is
rejected with zero attempts. -/
theorem exchange_payload_validation_witness :
    ctrlExchange true 19 4 0 [4] 21845 ⟨[], []⟩
        = ((.error .payloadTooLarge, 0), ⟨[], []⟩)
  ∧ ((ctrlExchange true 19 4 0 [4] 21844 ⟨[], []⟩).1.1
        = .error .payloadTooLarge ↔ 21844 < 21844)
  ∧ ((ctrlExchange true 19 4 200 [4] 1 ⟨[], []⟩).2 = ⟨[], []⟩
       ∧ (ctrlExchange true 19 4 200 [4] 1 ⟨[], []⟩).1.2 = 0) :=
  ⟨(exchange_payload_validation 19 4 0 [4] 21845 ⟨[], []⟩).2.1
      (by decide) (by decide) (by decide),
   (exchange_payload_validation 19 4 0 [4] 21844 ⟨[], []⟩).1
      (by decide) (by decide) (by decide),
   (exchange_payload_validation 19 4 200 [4] 1 ⟨[], []⟩).2.2
      (Or.inl (by decide))⟩

/-! ## C8: `_do_write` per-byte behaviour -/

/-- C8: `_do_write` sends the payload bytes one at a time in order, each
followed by reading exactly one ack reply byte: with an all-ACK script it
sends every byte in order and succeeds; if the engine returns no reply
byte at position `k`, it fails with the fatal transport error having sent
exactly the first `k+1` bytes; if the reply's least-significant bit is
set at position `k`, it aborts with the NACK error having sent exactly
the first `k+1` bytes — the remaining payload bytes are never sent. -/
theorem do_write_per_byte :
    (∀ (out : List Nat) (rest : List Reply) (tr : List Ev),
       doWrite out ⟨List.replicate out.length [0] ++ rest, tr⟩
         = (.ok (), ⟨rest, tr ++ out.map Ev.writeEv⟩))
  ∧ (∀ (k : Nat) (out : List Nat) (rest : List Reply) (tr : List Ev),
       k < out.length →
       doWrite out ⟨List.replicate k [0] ++ ([] : Reply) :: rest, tr⟩
         = (.error .noAnswer, ⟨rest, tr ++ (out.take (k+1)).map Ev.writeEv⟩))
  ∧ (∀ (k : Nat) (out : List Nat) (rest : List Reply) (tr : List Ev),
       k < out.length →
       doWrite out ⟨List.replicate k [0] ++ ([1] : Reply) :: rest, tr⟩
         = (.error .nackErr, ⟨rest, tr ++ (out.take (k+1)).map Ev.writeEv⟩)) := by
  refine ⟨?_, ?_, ?_⟩
  · intro out
    induction out with
    | nil => intro rest tr; simp [doWrite]
    | cons b out2 ih =>
        intro rest tr
        rw [List.length_cons, List.replicate_succ, List.cons_append]
        rw [doWrite_cons_ack b out2
              ⟨[0] :: (List.replicate out2.length [0] ++ rest), tr⟩
              0 [] rfl (by decide)]
        have := ih rest (tr ++ [.writeEv b])
        simp only [List.drop_succ_cons, List.drop_zero]
        rw [this]
        simp
  · intro k
    induction k with
    | zero =>
        intro out rest tr h
        cases out with
        | nil => simp at h
        | cons b out2 =>
            rw [List.replicate_zero, List.nil_append]
            rw [doWrite_cons_none b out2 ⟨([] : Reply) :: rest, tr⟩ rfl]
            simp
    | succ j ih =>
        intro out rest tr h
        cases out with
        | nil => simp at h
        | cons b out2 =>
            rw [List.replicate_succ, List.cons_append]
            rw [doWrite_cons_ack b out2
                  ⟨[0] :: (List.replicate j [0] ++ ([] : Reply) :: rest), tr⟩
                  0 [] rfl (by decide)]
            have h2 : j < out2.length := by
              simp at h
              omega
            have := ih out2 rest (tr ++ [.writeEv b]) h2
            simp only [List.drop_succ_cons, List.drop_zero]
            rw [this]
            simp
  · intro k
    induction k with
    | zero =>
        intro out rest tr h
        cases out with
        | nil => simp at h
        | cons b out2 =>
            rw [List.replicate_zero, List.nil_append]
            rw [doWrite_cons_nack b out2 ⟨([1] : Reply) :: rest, tr⟩
                  1 [] rfl (by decide)]
            simp
    | succ j ih =>
        intro out rest tr h
        cases out with
        | nil => simp at h
        | cons b out2 =>
            rw [List.replicate_succ, List.cons_append]
            rw [doWrite_cons_ack b out2
                  ⟨[0] :: (List.replicate j [0] ++ ([1] : Reply) :: rest), tr⟩
                  0 [] rfl (by decide)]
            have h2 : j < out2.length := by
              simp at h
              omega
            have := ih out2 rest (tr ++ [.writeEv b]) h2
            simp only [List.drop_succ_cons, List.drop_zero]
            rw [this]
            simp

/-- Concrete instantiation: payload `[5, 6, 7]`, full ACK run, missing
reply at position 0, NACK at position 1. -/
theorem do_write_per_byte_witness :
    doWrite [5, 6, 7] ⟨List.replicate 3 [0] ++ [[2]], []⟩
      = (.ok (), ⟨[[2]], [.writeEv 5, .writeEv 6, .writeEv 7]⟩)
  ∧ doWrite [9] ⟨List.replicate 0 [0] ++ ([] : Reply) :: [], []⟩
      = (.error .noAnswer, ⟨[], [.writeEv 9]⟩)
  ∧ doWrite [5, 6, 7] ⟨List.replicate 1 [0] ++ ([1] : Reply) :: [[3]], []⟩
      = (.error .nackErr, ⟨[[3]], [.writeEv 5, .writeEv 6]⟩) :=
  ⟨do_write_per_byte.1 [5, 6, 7] [[2]] [],
   do_write_per_byte.2.1 0 [9] [] [] (by decide),
   do_write_per_byte.2.2 1 [5, 6, 7] [[3]] [] (by decide)⟩

/-! ## C10: only the upper address bound is validated -/

theorem retryLoop_trace_ext {A : Type} (body : S → Except Err A × S)
    (hb : ∀ s0 : S, ∃ t, (body s0).2.trace = s0.trace ++ t) :
    ∀ r (s : S), ∃ u, (retryLoop body r s).2.trace = s.trace ++ u := by
  intro r
  induction r with
  | zero => intro s; exact ⟨[], by simp [retryLoop]⟩
  | succ n ih =>
      intro s
      obtain ⟨t, ht⟩ := hb s
      have hep : (doEpilog (body s).2).trace
          = s.trace ++ (t ++ [Ev.epilogEv]) := by
        rw [doEpilog_eq]
        show (body s).2.trace ++ [Ev.epilogEv] = _
        rw [ht]
        simp
      rw [retryLoop_succ]
      cases hres : (body s).1 with
      | ok a => exact ⟨t ++ [.epilogEv], hep⟩
      | error e =>
          cases e with
          | nackErr =>
              by_cases hn : n = 0
              · rw [if_pos hn]
                exact ⟨t ++ [.epilogEv], hep⟩
              · rw [if_neg hn]
                obtain ⟨u, hu⟩ := ih (doEpilog (body s).2)
                refine ⟨t ++ [Ev.epilogEv] ++ u, ?_⟩
                show (retryLoop body n (doEpilog (body s).2)).2.trace = _
                rw [hu, hep]
                simp
          | noAnswer => exact ⟨t ++ [.epilogEv], hep⟩
          | notInitialized => exact ⟨t ++ [.epilogEv], hep⟩
          | badAddress => exact ⟨t ++ [.epilogEv], hep⟩
          | nothingToRead => exact ⟨t ++ [.epilogEv], hep⟩
          | nothingToWrite => exact ⟨t ++ [.epilogEv], hep⟩
          | payloadTooLarge => exact ⟨t ++ [.epilogEv], hep⟩
          | badWidth => exact ⟨t ++ [.epilogEv], hep⟩

theorem retryLoop_trace_start {A : Type} (body : S → Except Err A × S)
    (e0 : Ev) (hb : ∀ s0 : S, ∃ t, (body s0).2.trace = s0.trace ++ e0 :: t) :
    ∀ r (s : S), 0 < r →
      ∃ t, (retryLoop body r s).2.trace = s.trace ++ e0 :: t := by
  intro r
  induction r with
  | zero => intro s h; omega
  | succ n ih =>
      intro s h
      obtain ⟨t, ht⟩ := hb s
      have hep : (doEpilog (body s).2).trace
          = s.trace ++ e0 :: (t ++ [Ev.epilogEv]) := by
        rw [doEpilog_eq]
        show (body s).2.trace ++ [Ev.epilogEv] = _
        rw [ht]
        simp
      rw [retryLoop_succ]
      cases hres : (body s).1 with
      | ok a => exact ⟨t ++ [.epilogEv], hep⟩
      | error e =>
          cases e with
          | nackErr =>
              by_cases hn : n = 0
              · rw [if_pos hn]
                exact ⟨t ++ [.epilogEv], hep⟩
              · rw [if_neg hn]
                obtain ⟨u, hu⟩ := retryLoop_trace_ext body
                  (fun s0 => by
                    obtain ⟨t0, ht0⟩ := hb s0
                    exact ⟨e0 :: t0, ht0⟩) n (doEpilog (body s).2)
                refine ⟨t ++ [Ev.epilogEv] ++ u, ?_⟩
                show (retryLoop body n (doEpilog (body s).2)).2.trace = _
                rw [hu, hep]
                simp
          | noAnswer => exact ⟨t ++ [.epilogEv], hep⟩
          | notInitialized => exact ⟨t ++ [.epilogEv], hep⟩
          | badAddress => exact ⟨t ++ [.epilogEv], hep⟩
          | nothingToRead => exact ⟨t ++ [.epilogEv], hep⟩
          | nothingToWrite => exact ⟨t ++ [.epilogEv], hep⟩
          | payloadTooLarge => exact ⟨t ++ [.epilogEv], hep⟩
          | badWidth => exact ⟨t ++ [.epilogEv], hep⟩

/-- C10: `validate_address` enforces only the upper bound — every integer
address up to 0x7F, including negative values, passes validation — and a
negative address reaches the engine encoded as `(address << 1) & 0xff`
(with bit 0 set for the read direction): the first command `read` sends
is the prolog for exactly that byte. -/
theorem negative_address_accepted (a : ℤ) (tx rx n : Nat) (s : S) :
    (validate_address a = .ok () ↔ a ≤ 127)
  ∧ (a < 0 → 1 ≤ n →
       ∃ t, (ctrlRead true tx rx a n s).2.trace
         = s.trace ++ Ev.prologEv (((a * 2) % 256).toNat ||| BIT0) :: t) := by
  constructor
  · constructor
    · intro h
      by_contra hgt
      push_neg at hgt
      rw [validate_address_gt a hgt] at h
      simp at h
    · exact validate_address_ok a
  · intro hneg hn
    rw [ctrlRead_run tx rx a n s (by omega) hn]
    exact retryLoop_trace_start _ (Ev.prologEv (addrByte a ||| BIT0))
      (fun s0 => by
        obtain ⟨t, ht, hno⟩ := bodyRead_ext tx rx n (addrByte a ||| BIT0) s0
        exact ⟨t, ht⟩) RETRY_COUNT s (by decide)

/-- Concrete instantiation at address −1: validation passes and the
prolog is sent with address byte `0xff`. -/
theorem negative_address_accepted_witness :
    (validate_address (-1) = .ok () ↔ (-1 : ℤ) ≤ 127)
  ∧ (∃ t, (ctrlRead true 19 4 (-1) 1 ⟨[], []⟩).2.trace
       = [] ++ Ev.prologEv ((((-1) * 2) % 256).toNat ||| BIT0) :: t) :=
  ⟨(negative_address_accepted (-1) 19 4 1 ⟨[], []⟩).1,
   (negative_address_accepted (-1) 19 4 1 ⟨[], []⟩).2 (by decide) (by decide)⟩

/-! ## C6 / C7: `get_port` caching and liveness -/

theorem findSlave_append_self (l : List (ℤ × Nat)) (a : ℤ) (i : Nat)
    (h : findSlave l a = none) :
    findSlave (l ++ [(a, i)]) a = some i := by
  induction l with
  | nil => simp [findSlave]
  | cons p rest ih =>
      rcases p with ⟨x, j⟩
      simp only [findSlave] at h
      by_cases hx : x = a
      · rw [if_pos hx] at h
        exact absurd h (by simp)
      · rw [if_neg hx] at h
        simp only [List.cons_append, findSlave]
        rw [if_neg hx]
        exact ih h

/-- C6: for every address `a` with `a ≤ 0x7F` on a controller whose
engine handle is live, `get_port` succeeds, and a repeated call with the
same address returns the identical cached handle and leaves the state
unchanged (idempotence per address); for every `a > 0x7F` it always
fails — whatever the controller state — with an error of the spec's
ConfigurationError kind, before any bus activity. -/
theorem get_port_idempotent (c : Ctrl) (a : ℤ) :
    (c.ftdiLive = true → a ≤ 127 →
       ∃ i c2, get_port c a = .ok (i, c2) ∧ get_port c2 a = .ok (i, c2))
  ∧ (127 < a → ∃ e, get_port c a = .error e ∧ specKind e = .configuration) := by
  constructor
  · intro hlive ha
    have h1 : get_port c a
        = match findSlave c.slaves a with
          | some i => .ok (i, c)
          | none => .ok (c.slaves.length,
              ⟨c.ftdiLive, c.configured, c.slaves ++ [(a, c.slaves.length)]⟩) := by
      simp only [get_port, hlive, validate_address_ok a ha]
      simp
    cases hfs : findSlave c.slaves a with
    | some i =>
        rw [hfs] at h1
        exact ⟨i, c, h1, h1⟩
    | none =>
        rw [hfs] at h1
        refine ⟨c.slaves.length,
          ⟨c.ftdiLive, c.configured, c.slaves ++ [(a, c.slaves.length)]⟩,
          h1, ?_⟩
        have hf2 : findSlave (c.slaves ++ [(a, c.slaves.length)]) a
            = some c.slaves.length := findSlave_append_self _ _ _ hfs
        simp only [get_port, hlive, validate_address_ok a ha, hf2]
        simp
  · intro ha
    cases hlv : c.ftdiLive with
    | false =>
        refine ⟨.notInitialized, ?_, rfl⟩
        simp [get_port, hlv]
    | true =>
        refine ⟨.badAddress, ?_, rfl⟩
        simp [get_port, hlv, validate_address_gt a ha]

/-- Concrete instantiation: address 0x21 is cached and reused on a fresh
controller; address 200 is always rejected as a configuration error. -/
theorem get_port_idempotent_witness :
    (∃ i c2, get_port initCtrl 33 = .ok (i, c2)
       ∧ get_port c2 33 = .ok (i, c2))
  ∧ (∃ e, get_port initCtrl 200 = .error e
       ∧ specKind e = .configuration) :=
  ⟨(get_port_idempotent initCtrl 33).1 rfl (by decide),
   (get_port_idempotent initCtrl 200).2 (by decide)⟩

/-- C7 counterexample: a freshly constructed controller has not been
configured, yet `get_port` succeeds: the guard `if not self._ftdi` tests
the engine handle, which `__init__` creates before any `configure`. -/
theorem get_port_unconfigured_succeeds :
    initCtrl.configured = false
  ∧ get_port initCtrl 33 = .ok (0, ⟨true, false, [(33, 0)]⟩) :=
  ⟨rfl, rfl⟩

/-- C7 amended: `get_port` fails with the not-initialized configuration
error exactly when the engine handle is gone — i.e. after `terminate` —
regardless of whether `configure` has run; on a freshly constructed,
unconfigured controller it succeeds for any valid address. -/
theorem get_port_requires_engine (c : Ctrl) (a : ℤ) :
    (c.ftdiLive = false → get_port c a = .error .notInitialized)
  ∧ get_port (terminate c) a = .error .notInitialized
  ∧ (a ≤ 127 → ∃ v, get_port initCtrl a = .ok v) := by
  refine ⟨?_, ?_, ?_⟩
  · intro h
    simp [get_port, h]
  · simp [get_port, terminate]
  · intro ha
    refine ⟨(0, ⟨true, false, [(a, 0)]⟩), ?_⟩
    simp [get_port, initCtrl, validate_address_ok a ha, findSlave]

/-- Concrete instantiation: `terminate` after `configure` makes
`get_port` fail; a fresh unconfigured controller succeeds. -/
theorem get_port_requires_engine_witness :
    get_port (terminate (configureCtrl initCtrl)) 33
        = .error .notInitialized
  ∧ (∃ v, get_port initCtrl 33 = .ok v) :=
  ⟨(get_port_requires_engine (configureCtrl initCtrl) 33).2.1,
   (get_port_requires_engine initCtrl 33).2.2 (by decide)⟩

/-! ## C9: register prefix encoding -/

/-- C9: after `configure_register(bigendian=True, width=2)`,
`write_to(0x0102, b'\xAA')` passes exactly the payload
`[0x01, 0x02, 0xAA]` to the controller `write`; with `bigendian=False`
it passes `[0x02, 0x01, 0xAA]`; and `configure_register` with any width
outside {1, 2, 4} fails with the configuration error without producing a
reconfigured port, so the previously configured format stays in use. -/
theorem configure_register_write_to (p : Port) (a : ℤ) (s : S) :
    (∀ p2, configure_register p true 2 = .ok p2 →
       make_buffer p2 0x0102 [0xAA] = [0x01, 0x02, 0xAA]
         ∧ write_to true p2 a 0x0102 [0xAA] s
             = ctrlWrite true (a + p2.shift) [0x01, 0x02, 0xAA] s)
  ∧ (∀ p2, configure_register p false 2 = .ok p2 →
       make_buffer p2 0x0102 [0xAA] = [0x02, 0x01, 0xAA]
         ∧ write_to true p2 a 0x0102 [0xAA] s
             = ctrlWrite true (a + p2.shift) [0x02, 0x01, 0xAA] s)
  ∧ (∀ (b : Bool) (w : Nat), w ≠ 1 → w ≠ 2 → w ≠ 4 →
       configure_register p b w = .error .badWidth) := by
  refine ⟨?_, ?_, ?_⟩
  · intro p2 h
    simp only [configure_register, if_pos (by decide : (2:Nat) = 1 ∨ (2:Nat) = 2 ∨ (2:Nat) = 4)] at h
    have hp2 : p2 = ⟨p.shift, true, 2⟩ := by
      cases h
      rfl
    subst hp2
    constructor
    · rfl
    · show ctrlWrite true (a + p.shift) (make_buffer ⟨p.shift, true, 2⟩ 0x0102 [0xAA]) s = _
      rfl
  · intro p2 h
    simp only [configure_register, if_pos (by decide : (2:Nat) = 1 ∨ (2:Nat) = 2 ∨ (2:Nat) = 4)] at h
    have hp2 : p2 = ⟨p.shift, false, 2⟩ := by
      cases h
      rfl
    subst hp2
    constructor
    · rfl
    · show ctrlWrite true (a + p.shift) (make_buffer ⟨p.shift, false, 2⟩ 0x0102 [0xAA]) s = _
      rfl
  · intro b w h1 h2 h4
    rw [configure_register, if_neg (by simp [h1, h2, h4])]

/-- Concrete instantiation on the default port state. -/
theorem configure_register_write_to_witness :
    make_buffer ⟨0, true, 2⟩ 0x0102 [0xAA] = [0x01, 0x02, 0xAA]
  ∧ make_buffer ⟨0, false, 2⟩ 0x0102 [0xAA] = [0x02, 0x01, 0xAA]
  ∧ configure_register ⟨0, false, 1⟩ true 3 = .error .badWidth :=
  ⟨((configure_register_write_to ⟨0, false, 1⟩ 0 ⟨[], []⟩).1
      ⟨0, true, 2⟩ rfl).1,
   ((configure_register_write_to ⟨0, false, 1⟩ 0 ⟨[], []⟩).2.1
      ⟨0, false, 2⟩ rfl).1,
   (configure_register_write_to ⟨0, false, 1⟩ 0 ⟨[], []⟩).2.2 true 3
      (by decide) (by decide) (by decide)⟩

/-! ## C1 / C4: chunked read synthesis -/

/-- C1 (divergence exhibit): with send capacity 19 and receive capacity 4
the chunk size is 2, and a 3-byte read returns all 3 bytes but
synthesizes a nack-terminated unit at the end of EVERY chunk: the unit
stream is ack, nack, nack — two nack-terminated units, with the
intermediate chunk boundary nack-terminated instead of ack-terminated as
the specification requires. -/
theorem chunked_read_nacks_every_chunk :
    totalRead 19 4 3 = 3
  ∧ chunkSizeUsed 19 4 = 2
  ∧ unitStream 19 4 3 = [.ackTerm, .nackTerm, .nackTerm]
  ∧ nackCount (unitStream 19 4 3) = 2 := by decide

/-- C4 counterexample: with send capacity 18 and receive capacity 100,
the claimed chunk size `min(rx − 2, tx ÷ 9) = min(98, 2) = 2` differs
from the computed one: the code divides `tx_size − 1` (one byte reserved
for the trailing send-immediate command), giving 1, so a 2-byte read is
split into two one-byte chunks. -/
theorem chunk_size_counterexample :
    chunkSizeUsed 18 100 = 1
  ∧ min (100 - 2) (18 / 9) = 2
  ∧ doReadChunks 18 100 2 = [⟨1, false⟩, ⟨1, true⟩] := by decide

/-- C4 amended: the chunk size equals
`min(receive_capacity − 2, (send_capacity − 1) ÷ per_unit_command_size)`
— one byte of the send capacity reserved for the send-immediate command —
where the per-unit command size is the 9-byte length of the
read-byte + nack-bit + clock-restore unit, and the first chunk's block
count is the requested length capped at that chunk size. -/
theorem chunk_size_formula (txSize rxSize readlen : Nat) (hn : 1 ≤ readlen) :
    chunkSizeUsed txSize rxSize = min (rxSize - 2) ((txSize - 1) / 9)
  ∧ readLast.length = 9
  ∧ (doReadChunks txSize rxSize readlen).head?.map RChunk.blockCount
      = some (min readlen (chunkSizeUsed txSize rxSize)) := by
  refine ⟨?_, by decide, ?_⟩
  · unfold chunkSizeUsed
    rw [show readLast.length = 9 from by decide]
    exact min_comm _ _
  · rcases readlen with _ | c
    · omega
    · simp [doReadChunks, doReadLoop]

/-- Concrete instantiation at send capacity 19, receive capacity 4,
requested length 3. -/
theorem chunk_size_formula_witness :
    chunkSizeUsed 19 4 = min (4 - 2) ((19 - 1) / 9)
  ∧ readLast.length = 9
  ∧ (doReadChunks 19 4 3).head?.map RChunk.blockCount
      = some (min 3 (chunkSizeUsed 19 4)) :=
  chunk_size_formula 19 4 3 (by decide)

end PyFtdiI2c
